import Mathlib

/-!
# Verification of the Tijuana places-scraping scripts

Shallow embedding of the repository's Python scripts:

* `src/exhaustive.py` — grid scan over a bounding box, seen-set
  de-duplication, website filter, CSV export;
* `src/places.py` — same grid scan plus a category (`PROMO_TYPES`) filter;
* `src/tijuana_places_no_website.py` — single large circle around downtown,
  no de-duplication;
* `src/only_phone.py` — post-processing phone filter over the exported CSV.

Dictionaries returned by the remote API are modelled as structures with
`Option` fields (`none` = key absent).  Python truthiness on strings
(`""` is falsy) and on `None` is modelled explicitly wherever the code
relies on it (`a or b`, `if not page_token`, `if phone and phone.strip()`).
Floats are modelled as rationals `ℚ`, which matches the idealized
arithmetic of the spec's grid-count property.
-/

namespace Scrape

/-- A place-details response, as consumed by the crawl loops.  Each field
models a JSON key of the response; `none` means the key is absent.
`displayName` models the nested `displayName.text` string the code reads. -/
structure Detail where
  displayName : Option String
  formattedAddress : Option String
  internationalPhoneNumber : Option String
  nationalPhoneNumber : Option String
  websiteUri : Option String
  types : List String
  primaryType : Option String
deriving DecidableEq

/-- The record appended to `rows` for an accepted candidate
(`name`, `address`, `phone`). -/
structure PlaceRecord where
  name : String
  address : String
  phone : String
deriving DecidableEq

/-- Python `det.get("internationalPhoneNumber") or det.get("nationalPhoneNumber", "")`:
the left value wins when present and truthy (non-empty); otherwise the right
`get` with default `""`. -/
def phoneOf (intl natl : Option String) : String :=
  match intl with
  | some s => if s = "" then natl.getD "" else s
  | none => natl.getD ""

/-- Outcome of processing one admitted candidate's detail response. -/
inductive Outcome where
  | skip
  | accept (r : PlaceRecord)
  | shapeError
deriving DecidableEq

/-- The per-candidate filter of `exhaustive.py` (lines 120-132) and of
`tijuana_places_no_website.py` (lines 89-102): skip when the response has a
`websiteUri` key, otherwise build the record from `displayName.text` and
`formattedAddress` (a missing key there raises, modelled as `shapeError`). -/
def processDetail (det : Detail) : Outcome :=
  if det.websiteUri.isSome then
    Outcome.skip
  else
    match det.displayName, det.formattedAddress with
    | some n, some a =>
        Outcome.accept ⟨n, a, phoneOf det.internationalPhoneNumber det.nationalPhoneNumber⟩
    | _, _ => Outcome.shapeError

/-- The `PROMO_TYPES` allow-set of `places.py` (lines 21-46). -/
def PROMO_TYPES : List String :=
  [ "restaurant", "cafe", "coffee_shop", "bakery", "ice_cream_shop",
    "pizza_restaurant", "dessert_shop", "bar", "pub",
    "barber_shop", "beauty_salon", "hair_salon", "nail_salon",
    "spa", "massage", "wellness_center", "yoga_studio",
    "dental_clinic", "physiotherapist", "chiropractor",
    "bed_and_breakfast", "guest_house", "hostel", "inn",
    "wedding_venue", "event_venue", "community_center",
    "tour_agency", "travel_agency",
    "clothing_store", "gift_shop", "book_store", "jewelry_store",
    "furniture_store", "pet_store", "sporting_goods_store", "florist",
    "electrician", "plumber", "locksmith", "painter", "laundry" ]

/-- The type labels `places.py` collects (lines 130-132):
`set(det.get("types", []))`, extended by `det["primaryType"]` only when that
value is truthy (present and non-empty). -/
def placeTypes (det : Detail) : List String :=
  det.types ++
    (match det.primaryType with
     | some p => if p = "" then [] else [p]
     | none => [])

/-- The per-candidate filter of `places.py` (lines 125-142): website check,
then the category-overlap check against `PROMO_TYPES`, then record
construction. -/
def processDetailFiltered (det : Detail) : Outcome :=
  if det.websiteUri.isSome then
    Outcome.skip
  else if !(placeTypes det).any (fun t => PROMO_TYPES.contains t) then
    Outcome.skip
  else
    match det.displayName, det.formattedAddress with
    | some n, some a =>
        Outcome.accept ⟨n, a, phoneOf det.internationalPhoneNumber det.nationalPhoneNumber⟩
    | _, _ => Outcome.shapeError

/-- The type-label union exactly as the claim words it: the `types` list
together with the `primaryType` label whenever that key is present. -/
def claimTypeUnion (det : Detail) : List String :=
  det.types ++
    (match det.primaryType with
     | some p => [p]
     | none => [])

/-! ## Deduplicator (`seen_ids` in `exhaustive.py`, `seen` in `places.py`) -/

/-- One `admit` step: the `if pid in seen: continue` test followed by
`seen.add(pid)` (`exhaustive.py` lines 116-118).  Returns whether the id is
admitted together with the updated seen-set. -/
def admitStep (seen : List String) (pid : String) : Bool × List String :=
  if pid ∈ seen then (false, seen) else (true, pid :: seen)

/-- Run `admit` over a whole sequence of candidate ids, threading the
seen-set, and collect the returned booleans. -/
def admitRun (seen : List String) : List String → List Bool
  | [] => []
  | pid :: rest =>
    let s := admitStep seen pid
    s.1 :: admitRun s.2 rest

/-- How many times `admit` answered `true` for the id `x` over the run. -/
def countTrueFor (x : String) (seen ids : List String) : Nat :=
  (ids.zip (admitRun seen ids)).countP (fun p => p.1 == x && p.2)

/-! ## Detail-fetch traces of the crawl loops -/

/-- The inner per-page loop of the grid variants (`exhaustive.py` lines
115-120, identically `places.py` lines 120-125): for each candidate id, run
the admit test and, when admitted, invoke the detail fetch.  Returns the
sequence of ids for which `details` is invoked and the updated seen-set. -/
def processPids (seen : List String) : List String → List String × List String
  | [] => ([], seen)
  | pid :: rest =>
    let s := admitStep seen pid
    if s.1 then
      let r := processPids s.2 rest
      (pid :: r.1, r.2)
    else
      processPids s.2 rest

/-- The page loop of the grid variants at one scan point: each page's ids are
processed against the shared seen-set. -/
def runPoint (seen : List String) : List (List String) → List String × List String
  | [] => ([], seen)
  | page :: rest =>
    let r1 := processPids seen page
    let r2 := runPoint r1.2 rest
    (r1.1 ++ r2.1, r2.2)

/-- The whole grid crawl: one page-walk per scan point, all sharing the
process-lifetime seen-set (`seen_ids` is a global in `exhaustive.py`).  The
first component is the full sequence of detail-fetch invocations. -/
def runGrid (seen : List String) : List (List (List String)) → List String × List String
  | [] => ([], seen)
  | pages :: rest =>
    let r1 := runPoint seen pages
    let r2 := runGrid r1.2 rest
    (r1.1 ++ r2.1, r2.2)

/-- The single-circle variant (`tijuana_places_no_website.py` lines 87-89):
no seen-set — `details` is invoked once per id occurrence on every page. -/
def runSingleDetails : List (List String) → List String
  | [] => []
  | page :: rest => page ++ runSingleDetails rest

/-! ## Grid Generator (`frange` and `grid_points` in `exhaustive.py`) -/

/-- Fuelled unfolding of the `frange` loop body
(`x = start; while x < stop: yield x; x += step`). -/
def frangeAux : Nat → ℚ → ℚ → ℚ → List ℚ
  | 0, _, _, _ => []
  | n + 1, x, stop, step => if x < stop then x :: frangeAux n (x + step) stop step else []

/-- The number of iterations the `frange` loop performs for a positive step:
the ceiling of `(stop - start) / step`, clamped at zero. -/
def frangeCount (start stop step : ℚ) : Nat := (⌈(stop - start) / step⌉).toNat

/-- Function `frange` of `exhaustive.py` (lines 34-39): floats from `start`
(inclusive) to `stop` (exclusive) in increments of `step`, modelled over ℚ.
The fuel is the exact iteration count, proved sufficient in
`frangeAux_length`. -/
def frange (start stop step : ℚ) : List ℚ :=
  frangeAux (frangeCount start stop step) start stop step

/-- Definition `grid_points` of `exhaustive.py` (lines 99-100):
`itertools.product` of the two per-axis ranges, latitude outer. -/
def gridPoints (latMin latMax latStep lonMin lonMax lonStep : ℚ) : List (ℚ × ℚ) :=
  (frange latMin latMax latStep).flatMap
    (fun la => (frange lonMin lonMax lonStep).map (fun lo => (la, lo)))

/-! ## Page Walker (`nearby` and the page loop in `exhaustive.py`) -/

/-- The search radius constant `RADIUS_M` (1 500 m). -/
def RADIUS_M : ℚ := 1500

/-- A Nearby-Search request body: either the circle parameters with the
result cap and no token, or a body holding only the continuation token. -/
inductive Body where
  | firstPage (lat lon radius : ℚ) (maxResultCount : Nat)
  | tokenPage (token : String)
deriving DecidableEq

/-- Function `nearby` of `exhaustive.py` (lines 52-66): a truthy `page_token` gives
the token-only body, otherwise the circle body (`maxResultCount` 20). -/
def nearby (lat lon : ℚ) (tok : Option String) : Body :=
  match tok with
  | some t => if t = "" then Body.firstPage lat lon RADIUS_M 20 else Body.tokenPage t
  | none => Body.firstPage lat lon RADIUS_M 20

/-- A scripted Nearby-Search response: candidate ids plus the optional
`nextPageToken`. -/
structure NearbyResp where
  places : List String
  nextPageToken : Option String
deriving DecidableEq

/-- Observable steps of the page loop: an issued request or a settling
delay (`time.sleep`, in seconds). -/
inductive Event where
  | request (b : Body)
  | sleep (secs : Nat)
deriving DecidableEq

/-- Python truthiness of the token slot: `None` and `""` are falsy. -/
def truthyTok : Option String → Bool
  | none => false
  | some t => !(t == "")

/-- The token value carried by a response (`""` when absent). -/
def tokValue (r : NearbyResp) : String := r.nextPageToken.getD ""

/-- The page loop of `exhaustive.py` (lines 109-137) run against a response
script (response `i` answers request `i`): issue `nearby`, read the token,
and either stop (falsy token) or sleep 2 s and walk on with only the token. -/
def walkTrace (lat lon : ℚ) (tok : Option String) : List NearbyResp → List Event
  | [] => []
  | r :: rest =>
    Event.request (nearby lat lon tok) ::
      (match r.nextPageToken with
       | none => []
       | some t =>
           if t = "" then [] else Event.sleep 2 :: walkTrace lat lon (some t) rest)

/-- The requests an event trace issues, in order. -/
def requestsOf (tr : List Event) : List Body :=
  tr.filterMap fun e =>
    match e with
    | Event.request b => some b
    | Event.sleep _ => none

/-- The settling delays an event trace performs, in order. -/
def sleepsOf (tr : List Event) : List Nat :=
  tr.filterMap fun e =>
    match e with
    | Event.request _ => none
    | Event.sleep s => some s

/-! ## Exporter (CSV block of `exhaustive.py`, lines 141-150) -/

/-- The `csv.DictWriter` field list `["name", "address", "phone"]`. -/
def exportFieldnames : List String := ["name", "address", "phone"]

/-- Dict access `row[k]` performed by the writer for each fieldname. -/
def recordField (r : PlaceRecord) : String → String
  | "name" => r.name
  | "address" => r.address
  | "phone" => r.phone
  | _ => ""

/-- The export step: `if rows:` write header plus one row per record,
otherwise write nothing (`none`). -/
def csvExport (rows : List PlaceRecord) : Option (List (List String)) :=
  if rows.isEmpty then none
  else some (exportFieldnames :: rows.map (fun r => exportFieldnames.map (recordField r)))

/-- The status line each branch prints. -/
def exportMessage (rows : List PlaceRecord) : String :=
  if rows.isEmpty then "No matches found." else "Saved → tijuana_no_website.csv"

/-! ## Phone-filter post-processing (`only_phone.py`) -/

/-- Drop leading whitespace characters from a character list. -/
def dropLeadingWs : List Char → List Char
  | [] => []
  | c :: cs => if c.isWhitespace then dropLeadingWs cs else c :: cs

/-- Python `str.strip()`: leading and trailing whitespace removed, modelled
over the character list (`String.trim` is not used because its `Substring`
recursion does not reduce in the kernel). -/
def pyStrip (s : String) : String :=
  String.mk ((dropLeadingWs ((dropLeadingWs s.data).reverse)).reverse)

/-- Python `a or b` over `row.get` results: the left value wins when present
and truthy (non-empty). -/
def pyOrStr (a b : Option String) : Option String :=
  match a with
  | some s => if s = "" then b else some s
  | none => b

/-- The `phone` variable of `only_phone.py` line 13:
`row.get('phone') or row.get('Phone') or row.get('telefono') or row.get('Telefono')`,
a CSV row being the association list the `DictReader` yields. -/
def phonePick (row : List (String × String)) : Option String :=
  pyOrStr (row.lookup "phone")
    (pyOrStr (row.lookup "Phone")
      (pyOrStr (row.lookup "telefono") (row.lookup "Telefono")))

/-- The row test of `only_phone.py` line 14: `if phone and phone.strip():`. -/
def keepRow (row : List (String × String)) : Bool :=
  match phonePick row with
  | none => false
  | some s => !(s == "") && !(pyStrip s == "")

/-- The row loop of `only_phone.py` (lines 12-15): write each row passing
the phone test, in input order. -/
def onlyPhoneRows : List (List (String × String)) → List (List (String × String))
  | [] => []
  | row :: rest =>
    if keepRow row then row :: onlyPhoneRows rest else onlyPhoneRows rest

/-- The filter script's output: the header written unconditionally by
`writer.writeheader()`, then the retained data rows. -/
structure PhoneFilterOut where
  header : List String
  dataRows : List (List (String × String))
deriving DecidableEq

/-- The whole `only_phone.py` run over the parsed input rows. -/
def onlyPhone (fieldnames : List String)
    (rows : List (List (String × String))) : PhoneFilterOut :=
  ⟨fieldnames, onlyPhoneRows rows⟩

/-- The row predicate exactly as the claim words it: some key among
`phone`, `Phone`, `telefono`, `Telefono` holds a value that is non-empty
after stripping whitespace. -/
def claimKeep (row : List (String × String)) : Bool :=
  ["phone", "Phone", "telefono", "Telefono"].any fun k =>
    match row.lookup k with
    | some s => !(pyStrip s == "")
    | none => false

/-! ## Verified properties -/

theorem empty_not_promo : ("" ∈ PROMO_TYPES) = False := by
  simp [PROMO_TYPES]

theorem placeTypes_any_promo (det : Detail) :
    (placeTypes det).any (fun t => PROMO_TYPES.contains t)
      = (claimTypeUnion det).any (fun t => PROMO_TYPES.contains t) := by
  unfold placeTypes claimTypeUnion
  cases h : det.primaryType with
  | none => rfl
  | some p =>
      by_cases hp : p = ""
      · subst hp
        simp [List.any_append, PROMO_TYPES]
      · simp [hp]

/-- C1: a detail response containing a `websiteUri` key produces no record in
either crawl variant, whatever the other fields hold; in the filtered variant
the website test fires before the category test, so the outcome is `skip`
regardless of the category overlap. -/
theorem website_always_rejected (det : Detail) (h : det.websiteUri.isSome) :
    processDetail det = Outcome.skip ∧ processDetailFiltered det = Outcome.skip := by
  constructor
  · unfold processDetail
    simp [h]
  · unfold processDetailFiltered
    simp [h]

theorem website_always_rejected_witness :
    (Detail.mk (some "Cafe X") (some "123 St") none none (some "http://x.com")
        ["restaurant"] (some "restaurant")).websiteUri.isSome
    ∧ processDetail (Detail.mk (some "Cafe X") (some "123 St") none none
        (some "http://x.com") ["restaurant"] (some "restaurant")) = Outcome.skip
    ∧ processDetailFiltered (Detail.mk (some "Cafe X") (some "123 St") none none
        (some "http://x.com") ["restaurant"] (some "restaurant")) = Outcome.skip := by
  refine ⟨by decide, ?_⟩
  exact website_always_rejected _ (by decide)

/-- C4: in the filtered variant, an admitted candidate without a website and
with the name and address fields present yields a record exactly when the
union of its `types` list and its `primaryType` label meets `PROMO_TYPES`. -/
theorem filtered_accept_iff_promo (det : Detail) (hw : det.websiteUri = none)
    (n a : String) (hn : det.displayName = some n)
    (ha : det.formattedAddress = some a) :
    (∃ r, processDetailFiltered det = Outcome.accept r)
      ↔ (claimTypeUnion det).any (fun t => PROMO_TYPES.contains t) = true := by
  constructor
  · intro ⟨r, hr⟩
    by_contra hfalse
    rw [Bool.not_eq_true] at hfalse
    unfold processDetailFiltered at hr
    rw [placeTypes_any_promo, hfalse] at hr
    simp [hw] at hr
  · intro hany
    refine ⟨⟨n, a, phoneOf det.internationalPhoneNumber det.nationalPhoneNumber⟩, ?_⟩
    unfold processDetailFiltered
    rw [placeTypes_any_promo, hany]
    simp [hw, hn, ha]

theorem filtered_accept_iff_promo_witness :
    ((Detail.mk (some "Cafe X") (some "123 St") none none none
        ["parking"] (some "cafe")).websiteUri = none)
    ∧ ((∃ r, processDetailFiltered (Detail.mk (some "Cafe X") (some "123 St")
          none none none ["parking"] (some "cafe")) = Outcome.accept r)
        ↔ (claimTypeUnion (Detail.mk (some "Cafe X") (some "123 St") none none
            none ["parking"] (some "cafe"))).any
              (fun t => PROMO_TYPES.contains t) = true) := by
  refine ⟨rfl, ?_⟩
  exact filtered_accept_iff_promo _ rfl "Cafe X" "123 St" rfl rfl

/-- C5: for an accepted candidate, the record's phone is the international
number when the response carries both numbers (a carried number being a
non-empty value, per the provider contract that phone fields are absent when
there is no data); the national number when only that one is present; and the
empty string when neither is present. -/
theorem phone_selection (det : Detail) (r : PlaceRecord)
    (hacc : processDetail det = Outcome.accept r) :
    (∀ si sn, det.internationalPhoneNumber = some si → si ≠ "" →
        det.nationalPhoneNumber = some sn → r.phone = si)
    ∧ (det.internationalPhoneNumber = none →
        ∀ sn, det.nationalPhoneNumber = some sn → r.phone = sn)
    ∧ (det.internationalPhoneNumber = none →
        det.nationalPhoneNumber = none → r.phone = "") := by
  have hphone : r.phone = phoneOf det.internationalPhoneNumber det.nationalPhoneNumber := by
    unfold processDetail at hacc
    by_cases hw : det.websiteUri.isSome
    · simp [hw] at hacc
    · simp [hw] at hacc
      cases hdn : det.displayName with
      | none => rw [hdn] at hacc; exact absurd hacc (by simp)
      | some nm =>
          cases hfa : det.formattedAddress with
          | none => rw [hdn, hfa] at hacc; exact absurd hacc (by simp)
          | some ad =>
              rw [hdn, hfa] at hacc
              cases hacc
              rfl
  refine ⟨?_, ?_, ?_⟩
  · intro si sn hsi hne hsn
    rw [hphone, hsi]
    unfold phoneOf
    simp [hne]
  · intro hnone sn hsn
    rw [hphone, hnone, hsn]
    rfl
  · intro hnone hnone2
    rw [hphone, hnone, hnone2]
    rfl

theorem phone_selection_witness :
    processDetail (Detail.mk (some "Cafe X") (some "123 St") none
        (some "555-1234") none [] none)
      = Outcome.accept ⟨"Cafe X", "123 St", "555-1234"⟩
    ∧ (Detail.mk (some "Cafe X") (some "123 St") none (some "555-1234") none
        [] none).internationalPhoneNumber = none
    ∧ (⟨"Cafe X", "123 St", "555-1234"⟩ : PlaceRecord).phone = "555-1234" := by
  refine ⟨by decide, rfl, ?_⟩
  exact (phone_selection
    (Detail.mk (some "Cafe X") (some "123 St") none (some "555-1234") none [] none)
    ⟨"Cafe X", "123 St", "555-1234"⟩ (by decide)).2.1 rfl "555-1234" rfl

theorem admitRun_length (ids : List String) :
    ∀ seen : List String, (admitRun seen ids).length = ids.length := by
  induction ids with
  | nil => intro seen; rfl
  | cons pid rest ih =>
      intro seen
      simp [admitRun, ih]

theorem admitRun_cons (seen : List String) (pid : String) (rest : List String) :
    admitRun seen (pid :: rest)
      = (admitStep seen pid).1 :: admitRun (admitStep seen pid).2 rest := rfl

theorem countTrueFor_eq (x : String) (ids : List String) :
    ∀ seen : List String,
      countTrueFor x seen ids = if x ∈ ids ∧ x ∉ seen then 1 else 0 := by
  induction ids with
  | nil => intro seen; simp [countTrueFor]
  | cons pid rest ih =>
      intro seen
      by_cases hmem : pid ∈ seen
      · have hstep : admitStep seen pid = (false, seen) := by
          simp [admitStep, hmem]
        have hskip : countTrueFor x seen (pid :: rest) = countTrueFor x seen rest := by
          unfold countTrueFor
          rw [admitRun_cons, hstep]
          simp [List.countP_cons]
        rw [hskip, ih]
        by_cases hx : x = pid
        · subst hx; simp [hmem]
        · simp [List.mem_cons, hx]
      · have hstep : admitStep seen pid = (true, pid :: seen) := by
          simp [admitStep, hmem]
        have hhead : countTrueFor x seen (pid :: rest)
            = countTrueFor x (pid :: seen) rest + (if pid = x then 1 else 0) := by
          unfold countTrueFor
          rw [admitRun_cons, hstep]
          simp [List.countP_cons, beq_iff_eq]
        rw [hhead, ih]
        by_cases hx : x = pid
        · subst hx
          simp [hmem, List.mem_cons]
        · have hpx : pid ≠ x := fun h => hx h.symm
          simp [List.mem_cons, hx, hpx]

theorem admitRun_getD (ids : List String) :
    ∀ (seen : List String) (i : Nat), i < ids.length →
      ((admitRun seen ids).getD i false = true
        ↔ ids.getD i "" ∉ seen ∧ ids.getD i "" ∉ ids.take i) := by
  induction ids with
  | nil => intro seen i h; simp at h
  | cons pid rest ih =>
      intro seen i h
      cases i with
      | zero =>
          by_cases hmem : pid ∈ seen
          · simp [admitRun, admitStep, hmem]
          · simp [admitRun, admitStep, hmem]
      | succ i =>
          have hlen : i < rest.length := by
            simpa using Nat.lt_of_succ_lt_succ h
          have htake : (pid :: rest).take (i + 1) = pid :: rest.take i := rfl
          have hgetD : (pid :: rest).getD (i + 1) "" = rest.getD i "" := rfl
          by_cases hmem : pid ∈ seen
          · have hstep : admitStep seen pid = (false, seen) := by
              simp [admitStep, hmem]
            have hrw : (admitRun seen (pid :: rest)).getD (i + 1) false
                = (admitRun seen rest).getD i false := by
              rw [admitRun_cons, hstep]
              rfl
            rw [hrw, ih seen i hlen, hgetD, htake]
            constructor
            · intro hh
              refine ⟨hh.1, ?_⟩
              intro hin
              rcases List.mem_cons.mp hin with heq | hmem2
              · exact hh.1 (by rw [heq]; exact hmem)
              · exact hh.2 hmem2
            · intro hh
              exact ⟨hh.1, fun hin => hh.2 (List.mem_cons_of_mem _ hin)⟩
          · have hstep : admitStep seen pid = (true, pid :: seen) := by
              simp [admitStep, hmem]
            have hrw : (admitRun seen (pid :: rest)).getD (i + 1) false
                = (admitRun (pid :: seen) rest).getD i false := by
              rw [admitRun_cons, hstep]
              rfl
            rw [hrw, ih (pid :: seen) i hlen, hgetD, htake]
            constructor
            · intro hh
              have hgpid : rest.getD i "" ≠ pid := fun heq =>
                hh.1 (by rw [heq]; exact List.mem_cons_self _ _)
              refine ⟨fun hin => hh.1 (List.mem_cons_of_mem _ hin), ?_⟩
              intro hin
              rcases List.mem_cons.mp hin with heq | hmem2
              · exact hgpid heq
              · exact hh.2 hmem2
            · intro hh
              have hgpid : rest.getD i "" ≠ pid := fun heq =>
                hh.2 (by rw [heq]; exact List.mem_cons_self _ _)
              refine ⟨?_, fun hin => hh.2 (List.mem_cons_of_mem _ hin)⟩
              intro hin
              rcases List.mem_cons.mp hin with heq | hmem2
              · exact hgpid heq
              · exact hh.1 hmem2

/-- C3: over any sequence of candidate ids, `admit` answers `true` exactly
once per distinct id, and the answer at each position is `true` precisely
when the id has not occurred earlier in the sequence. -/
theorem admit_true_exactly_once (ids : List String) :
    (∀ x, x ∈ ids → countTrueFor x [] ids = 1)
    ∧ (∀ i, i < ids.length →
        ((admitRun [] ids).getD i false = true
          ↔ ids.getD i "" ∉ ids.take i)) := by
  constructor
  · intro x hx
    rw [countTrueFor_eq]
    simp [hx]
  · intro i h
    rw [admitRun_getD ids [] i h]
    simp

theorem admit_true_exactly_once_witness :
    ("A" ∈ ["A", "B", "A"] ∧ countTrueFor "A" [] ["A", "B", "A"] = 1)
    ∧ (2 < (["A", "B", "A"] : List String).length
        ∧ ((admitRun [] ["A", "B", "A"]).getD 2 false = true
            ↔ (["A", "B", "A"] : List String).getD 2 "" ∉ (["A", "B", "A"] : List String).take 2)) := by
  constructor
  · exact ⟨by decide, (admit_true_exactly_once ["A", "B", "A"]).1 "A" (by decide)⟩
  · exact ⟨by decide, (admit_true_exactly_once ["A", "B", "A"]).2 2 (by decide)⟩

theorem processPids_cons_mem (seen : List String) (pid : String)
    (rest : List String) (hmem : pid ∈ seen) :
    processPids seen (pid :: rest) = processPids seen rest := by
  simp [processPids, admitStep, hmem]

theorem processPids_cons_notMem (seen : List String) (pid : String)
    (rest : List String) (hmem : pid ∉ seen) :
    processPids seen (pid :: rest)
      = (pid :: (processPids (pid :: seen) rest).1,
         (processPids (pid :: seen) rest).2) := by
  simp [processPids, admitStep, hmem]

theorem processPids_seen (pids : List String) :
    ∀ seen : List String,
      (processPids seen pids).2 = (processPids seen pids).1.reverse ++ seen := by
  induction pids with
  | nil => intro seen; simp [processPids]
  | cons pid rest ih =>
      intro seen
      by_cases hmem : pid ∈ seen
      · rw [processPids_cons_mem seen pid rest hmem]
        exact ih seen
      · rw [processPids_cons_notMem seen pid rest hmem, ih (pid :: seen)]
        simp

theorem processPids_count_le (pids : List String) :
    ∀ (seen : List String) (x : String),
      (processPids seen pids).1.count x ≤ if x ∈ seen then 0 else 1 := by
  induction pids with
  | nil =>
      intro seen x
      simp [processPids]
  | cons pid rest ih =>
      intro seen x
      by_cases hmem : pid ∈ seen
      · rw [processPids_cons_mem seen pid rest hmem]
        exact ih seen x
      · rw [processPids_cons_notMem seen pid rest hmem]
        have hinner := ih (pid :: seen) x
        by_cases hx : x = pid
        · subst hx
          have hz : (processPids (x :: seen) rest).1.count x = 0 := by
            have : x ∈ x :: seen := List.mem_cons_self _ _
            simpa [this] using hinner
          simp [List.count_cons, hz, hmem]
        · have hbound : (processPids (pid :: seen) rest).1.count x
              ≤ if x ∈ seen then 0 else 1 := by
            by_cases hs : x ∈ seen
            · have : x ∈ pid :: seen := List.mem_cons_of_mem _ hs
              simpa [hs, this] using hinner
            · have : x ∉ pid :: seen := by
                intro hin
                rcases List.mem_cons.mp hin with heq | hh
                · exact hx heq
                · exact hs hh
              simpa [hs, this] using hinner
          have hpx : (pid == x) = false := by
            simp [beq_iff_eq]
            exact fun h => hx h.symm
          simp only [List.count_cons, hpx, if_false]
          simpa using hbound

/-- Two consecutive call batches stay below one fetch per id when the second
batch starts from the seen-set the first batch left behind. -/
theorem count_append_le (c1 c2 seen : List String) (x : String)
    (h1 : c1.count x ≤ if x ∈ seen then 0 else 1)
    (h2 : c2.count x ≤ if x ∈ c1.reverse ++ seen then 0 else 1) :
    (c1 ++ c2).count x ≤ if x ∈ seen then 0 else 1 := by
  rw [List.count_append]
  by_cases hs : x ∈ seen
  · have hin : x ∈ c1.reverse ++ seen := List.mem_append_right _ hs
    simp [hs] at h1 ⊢
    simp [hin] at h2
    omega
  · by_cases hc1 : x ∈ c1
    · have hin : x ∈ c1.reverse ++ seen :=
        List.mem_append_left _ (List.mem_reverse.mpr hc1)
      simp [hin] at h2
      simp [hs] at h1 ⊢
      omega
    · have hz : c1.count x = 0 := by
        rw [List.count_eq_zero]
        exact hc1
      have hnot : x ∉ c1.reverse ++ seen := by
        intro hin
        rcases List.mem_append.mp hin with hh | hh
        · exact hc1 (List.mem_reverse.mp hh)
        · exact hs hh
      simp [hnot] at h2
      simp [hs, hz]
      omega

theorem runPoint_seen (pages : List (List String)) :
    ∀ seen : List String,
      (runPoint seen pages).2 = (runPoint seen pages).1.reverse ++ seen := by
  induction pages with
  | nil => intro seen; simp [runPoint]
  | cons page rest ih =>
      intro seen
      simp only [runPoint]
      rw [ih, List.reverse_append, List.append_assoc, ← processPids_seen]

theorem runPoint_count_le (pages : List (List String)) :
    ∀ (seen : List String) (x : String),
      (runPoint seen pages).1.count x ≤ if x ∈ seen then 0 else 1 := by
  induction pages with
  | nil =>
      intro seen x
      simp [runPoint]
  | cons page rest ih =>
      intro seen x
      show ((processPids seen page).1 ++ (runPoint (processPids seen page).2 rest).1).count x ≤ _
      apply count_append_le
      · exact processPids_count_le page seen x
      · rw [← processPids_seen]
        exact ih (processPids seen page).2 x

theorem runGrid_seen (script : List (List (List String))) :
    ∀ seen : List String,
      (runGrid seen script).2 = (runGrid seen script).1.reverse ++ seen := by
  induction script with
  | nil => intro seen; simp [runGrid]
  | cons pages rest ih =>
      intro seen
      simp only [runGrid]
      rw [ih, List.reverse_append, List.append_assoc, ← runPoint_seen]

theorem runGrid_count_le (script : List (List (List String))) :
    ∀ (seen : List String) (x : String),
      (runGrid seen script).1.count x ≤ if x ∈ seen then 0 else 1 := by
  induction script with
  | nil =>
      intro seen x
      simp [runGrid]
  | cons pages rest ih =>
      intro seen x
      show ((runPoint seen pages).1 ++ (runGrid (runPoint seen pages).2 rest).1).count x ≤ _
      apply count_append_le
      · exact runPoint_count_le pages seen x
      · rw [← runPoint_seen]
        exact ih (runPoint seen pages).2 x

/-- C2 (amended): in the grid-scan variants, which consult the shared
seen-set before fetching, each candidate id is detail-fetched at most once
per run, whatever pages and scan points it appears on. -/
theorem grid_details_at_most_once (script : List (List (List String))) (x : String) :
    (runGrid [] script).1.count x ≤ 1 := by
  simpa using runGrid_count_le script [] x

/-- C2 counterexample: the single-circle variant has no seen-set, so an id
returned on two pages is detail-fetched twice — the claim fails for that
variant. -/
theorem single_circle_fetches_twice :
    (runSingleDetails [["A"], ["A"]]).count "A" = 2
      ∧ ¬((runSingleDetails [["A"], ["A"]]).count "A" ≤ 1) := by
  decide

theorem frangeAux_length (step : ℚ) (hstep : 0 < step) :
    ∀ (n : Nat) (x stop : ℚ),
      (frangeAux n x stop step).length = min n (⌈(stop - x) / step⌉).toNat := by
  intro n
  induction n with
  | zero => intro x stop; simp [frangeAux]
  | succ n ih =>
      intro x stop
      by_cases hx : x < stop
      · have hdiv : (stop - (x + step)) / step = (stop - x) / step - 1 := by
          field_simp
          ring
        have hceil : ⌈(stop - (x + step)) / step⌉ = ⌈(stop - x) / step⌉ - 1 := by
          rw [hdiv, Int.ceil_sub_one]
        have hpos : 0 < (stop - x) / step := div_pos (by linarith) hstep
        have hone : 1 ≤ ⌈(stop - x) / step⌉ := Int.ceil_pos.mpr hpos
        simp only [frangeAux, if_pos hx, List.length_cons]
        rw [ih (x + step) stop, hceil]
        omega
      · have hle : (stop - x) / step ≤ 0 := by
          rw [div_le_iff₀ hstep]
          simpa using (by linarith : stop - x ≤ 0)
        have hceil : ⌈(stop - x) / step⌉ ≤ 0 := by
          refine Int.ceil_le.mpr ?_
          simpa using hle
        simp only [frangeAux, if_neg hx, List.length_nil]
        omega

theorem frange_length (start stop step : ℚ) (hstep : 0 < step) :
    (frange start stop step).length = (⌈(stop - start) / step⌉).toNat := by
  unfold frange frangeCount
  rw [frangeAux_length step hstep]
  exact Nat.min_self _

theorem length_cross {α β : Type} (xs : List α) (ys : List β) :
    (xs.flatMap fun a => ys.map (Prod.mk a)).length = xs.length * ys.length := by
  induction xs with
  | nil => simp
  | cons a rest ih =>
      simp [List.flatMap_cons, ih, Nat.succ_mul, Nat.add_comm]

/-- C6: for `min < max` per axis and positive steps, each axis of the grid
holds exactly `⌈(max - min) / step⌉` points, the full grid is the product of
the two per-axis counts, and an axis whose step exceeds its range holds
exactly one point. -/
theorem grid_counts (latMin latMax lonMin lonMax latStep lonStep : ℚ)
    (h1 : latMin < latMax) (h2 : lonMin < lonMax)
    (h3 : 0 < latStep) (h4 : 0 < lonStep) :
    (frange latMin latMax latStep).length = (⌈(latMax - latMin) / latStep⌉).toNat
    ∧ (frange lonMin lonMax lonStep).length = (⌈(lonMax - lonMin) / lonStep⌉).toNat
    ∧ (gridPoints latMin latMax latStep lonMin lonMax lonStep).length
        = (frange latMin latMax latStep).length * (frange lonMin lonMax lonStep).length
    ∧ (latMax - latMin < latStep → (frange latMin latMax latStep).length = 1)
    ∧ (lonMax - lonMin < lonStep → (frange lonMin lonMax lonStep).length = 1) := by
  have hceil_one : ∀ lo hi st : ℚ, lo < hi → 0 < st → hi - lo < st →
      (⌈(hi - lo) / st⌉).toNat = 1 := by
    intro lo hi st hlt hst hrange
    have hpos : 0 < (hi - lo) / st := div_pos (by linarith) hst
    have h1' : 1 ≤ ⌈(hi - lo) / st⌉ := Int.ceil_pos.mpr hpos
    have hle : (hi - lo) / st ≤ 1 := (div_le_one hst).mpr (by linarith)
    have h2' : ⌈(hi - lo) / st⌉ ≤ 1 := by
      refine Int.ceil_le.mpr ?_
      simpa using hle
    omega
  refine ⟨frange_length _ _ _ h3, frange_length _ _ _ h4, length_cross _ _, ?_, ?_⟩
  · intro hrange
    rw [frange_length _ _ _ h3]
    exact hceil_one latMin latMax latStep h1 h3 hrange
  · intro hrange
    rw [frange_length _ _ _ h4]
    exact hceil_one lonMin lonMax lonStep h2 h4 hrange

theorem grid_counts_witness :
    ((0 : ℚ) < 4/100 ∧ (0 : ℚ) < 4/100 ∧ (0 : ℚ) < 2/100 ∧ (0 : ℚ) < 2/100)
    ∧ ((frange 0 (4/100) (2/100)).length = (⌈((4/100 : ℚ) - 0) / (2/100)⌉).toNat
        ∧ (frange 0 (4/100) (2/100)).length = (⌈((4/100 : ℚ) - 0) / (2/100)⌉).toNat
        ∧ (gridPoints 0 (4/100) (2/100) 0 (4/100) (2/100)).length
            = (frange 0 (4/100) (2/100)).length * (frange 0 (4/100) (2/100)).length
        ∧ ((4/100 : ℚ) - 0 < 2/100 → (frange 0 (4/100) (2/100)).length = 1)
        ∧ ((4/100 : ℚ) - 0 < 2/100 → (frange 0 (4/100) (2/100)).length = 1)) := by
  constructor
  · refine ⟨by norm_num, by norm_num, by norm_num, by norm_num⟩
  · exact grid_counts 0 (4/100) 0 (4/100) (2/100) (2/100)
      (by norm_num) (by norm_num) (by norm_num) (by norm_num)

theorem walkTrace_requests (lat lon : ℚ) (script : List NearbyResp) :
    ∀ tok : Option String, script ≠ [] →
      (∀ i, i < script.length - 1 →
        truthyTok ((script.getD i (NearbyResp.mk [] none)).nextPageToken) = true) →
      truthyTok ((script.getD (script.length - 1)
          (NearbyResp.mk [] none)).nextPageToken) = false →
      requestsOf (walkTrace lat lon tok script)
          = nearby lat lon tok :: script.dropLast.map (fun r => Body.tokenPage (tokValue r))
        ∧ sleepsOf (walkTrace lat lon tok script) = List.replicate (script.length - 1) 2 := by
  induction script with
  | nil => intro tok hne _ _; exact absurd rfl hne
  | cons r rest ih =>
      intro tok hne hmid hlast
      cases rest with
      | nil =>
          have hfalse : truthyTok r.nextPageToken = false := by simpa using hlast
          cases htok : r.nextPageToken with
          | none =>
              simp [walkTrace, htok, requestsOf, sleepsOf]
          | some t =>
              have ht : t = "" := by
                rw [htok] at hfalse
                simpa [truthyTok] using hfalse
              subst ht
              simp [walkTrace, htok, requestsOf, sleepsOf]
      | cons r2 rest2 =>
          have htr : truthyTok r.nextPageToken = true := by
            have := hmid 0 (by simp)
            simpa using this
          cases htok : r.nextPageToken with
          | none => rw [htok] at htr; simp [truthyTok] at htr
          | some t =>
              have ht : t ≠ "" := by
                rw [htok] at htr
                simpa [truthyTok] using htr
              have hmid2 : ∀ i, i < (r2 :: rest2).length - 1 →
                  truthyTok (((r2 :: rest2).getD i
                    (NearbyResp.mk [] none)).nextPageToken) = true := by
                intro i hi
                have := hmid (i + 1) (by simpa using Nat.succ_lt_succ hi)
                simpa using this
              have hlast2 : truthyTok (((r2 :: rest2).getD ((r2 :: rest2).length - 1)
                  (NearbyResp.mk [] none)).nextPageToken) = false := by
                simpa using hlast
              have hrec := ih (some t) (by simp) hmid2 hlast2
              have hunfold : walkTrace lat lon tok (r :: r2 :: rest2)
                  = Event.request (nearby lat lon tok)
                      :: Event.sleep 2 :: walkTrace lat lon (some t) (r2 :: rest2) := by
                simp [walkTrace, htok, ht]
              have hr1 := hrec.1
              have hr2 := hrec.2
              constructor
              · rw [hunfold]
                simp only [requestsOf] at hr1 ⊢
                simp only [List.filterMap_cons]
                rw [hr1]
                have hnb : nearby lat lon (some t) = Body.tokenPage t := by
                  simp [nearby, ht]
                have hdl : (r :: r2 :: rest2).dropLast = r :: (r2 :: rest2).dropLast := rfl
                have htv : tokValue r = t := by simp [tokValue, htok]
                simp [hnb, hdl, htv]
              · rw [hunfold]
                simp only [sleepsOf] at hr2 ⊢
                simp only [List.filterMap_cons]
                rw [hr2]
                simp [List.replicate_succ]

/-- C7: at every scan point the walk sends the circle request (center,
radius, result cap, no token) first, sends exactly one token-only follow-on
per further page, each preceded by the 2-second settling delay, and stops
exactly with the first response carrying no (truthy) continuation token — so
a script of finitely many consecutive tokens yields one request per page. -/
theorem page_walker_spec (lat lon : ℚ) (script : List NearbyResp)
    (hne : script ≠ [])
    (hmid : ∀ i, i < script.length - 1 →
      truthyTok ((script.getD i (NearbyResp.mk [] none)).nextPageToken) = true)
    (hlast : truthyTok ((script.getD (script.length - 1)
        (NearbyResp.mk [] none)).nextPageToken) = false) :
    requestsOf (walkTrace lat lon none script)
        = Body.firstPage lat lon RADIUS_M 20
            :: script.dropLast.map (fun r => Body.tokenPage (tokValue r))
      ∧ (requestsOf (walkTrace lat lon none script)).length = script.length
      ∧ sleepsOf (walkTrace lat lon none script) = List.replicate (script.length - 1) 2 := by
  have h := walkTrace_requests lat lon script none hne hmid hlast
  refine ⟨?_, ?_, h.2⟩
  · rw [h.1]
    rfl
  · rw [h.1]
    have hpos : 0 < script.length := List.length_pos.mpr hne
    simp [List.length_dropLast]
    omega

theorem page_walker_spec_witness :
    (([⟨["A"], some "tok1"⟩, ⟨["B"], none⟩] : List NearbyResp) ≠ []
      ∧ (∀ i, i < ([⟨["A"], some "tok1"⟩, ⟨["B"], none⟩] : List NearbyResp).length - 1 →
          truthyTok ((([⟨["A"], some "tok1"⟩, ⟨["B"], none⟩] : List NearbyResp).getD i
            (NearbyResp.mk [] none)).nextPageToken) = true)
      ∧ truthyTok ((([⟨["A"], some "tok1"⟩, ⟨["B"], none⟩] : List NearbyResp).getD
          (([⟨["A"], some "tok1"⟩, ⟨["B"], none⟩] : List NearbyResp).length - 1)
          (NearbyResp.mk [] none)).nextPageToken) = false)
    ∧ (requestsOf (walkTrace 0 0 none [⟨["A"], some "tok1"⟩, ⟨["B"], none⟩])
        = Body.firstPage 0 0 RADIUS_M 20
            :: ([⟨["A"], some "tok1"⟩, ⟨["B"], none⟩] : List NearbyResp).dropLast.map
                (fun r => Body.tokenPage (tokValue r))
      ∧ (requestsOf (walkTrace 0 0 none [⟨["A"], some "tok1"⟩, ⟨["B"], none⟩])).length
          = ([⟨["A"], some "tok1"⟩, ⟨["B"], none⟩] : List NearbyResp).length
      ∧ sleepsOf (walkTrace 0 0 none [⟨["A"], some "tok1"⟩, ⟨["B"], none⟩])
          = List.replicate (([⟨["A"], some "tok1"⟩, ⟨["B"], none⟩] : List NearbyResp).length - 1) 2) := by
  refine ⟨⟨by decide, by decide, by decide⟩, ?_⟩
  exact page_walker_spec 0 0 [⟨["A"], some "tok1"⟩, ⟨["B"], none⟩]
    (by decide) (by decide) (by decide)

/-- C8: a run that accepted zero records writes no file and prints only the
no-matches status line; a run with at least one accepted record writes the
file. -/
theorem export_skips_empty (rows : List PlaceRecord) :
    (csvExport rows = none ↔ rows = [])
    ∧ (rows = [] → exportMessage rows = "No matches found.") := by
  cases rows with
  | nil => exact ⟨by simp [csvExport], fun _ => rfl⟩
  | cons r rs =>
      refine ⟨by simp [csvExport], fun h => absurd h (by simp)⟩

theorem export_skips_empty_witness :
    (csvExport [] = none ↔ ([] : List PlaceRecord) = [])
    ∧ (([] : List PlaceRecord) = [] → exportMessage [] = "No matches found.") :=
  export_skips_empty []

theorem recordField_row (r : PlaceRecord) :
    exportFieldnames.map (recordField r) = [r.name, r.address, r.phone] := rfl

/-- C9: a non-empty accumulation exports exactly the fixed header followed
by one data row per record in acceptance order, so the data-row count equals
the record count. -/
theorem export_rows_exact (rows : List PlaceRecord) (h : rows ≠ []) :
    csvExport rows
        = some (["name", "address", "phone"]
            :: rows.map (fun r => [r.name, r.address, r.phone]))
    ∧ (rows.map (fun r => [r.name, r.address, r.phone])).length = rows.length := by
  refine ⟨?_, by simp⟩
  have hne : rows.isEmpty = false := by
    cases rows with
    | nil => exact absurd rfl h
    | cons a l => rfl
  unfold csvExport
  rw [hne]
  simp [recordField_row, exportFieldnames]
  exact fun a _ => ⟨rfl, rfl, rfl⟩

theorem export_rows_exact_witness :
    (([(⟨"Cafe X", "123 St", "555-1234"⟩ : PlaceRecord)] : List PlaceRecord) ≠ [])
    ∧ (csvExport [(⟨"Cafe X", "123 St", "555-1234"⟩ : PlaceRecord)]
        = some (["name", "address", "phone"]
            :: ([(⟨"Cafe X", "123 St", "555-1234"⟩ : PlaceRecord)] : List PlaceRecord).map
                (fun r => [r.name, r.address, r.phone]))
      ∧ (([(⟨"Cafe X", "123 St", "555-1234"⟩ : PlaceRecord)] : List PlaceRecord).map
          (fun r => [r.name, r.address, r.phone])).length
          = ([(⟨"Cafe X", "123 St", "555-1234"⟩ : PlaceRecord)] : List PlaceRecord).length) := by
  refine ⟨by decide, ?_⟩
  exact export_rows_exact [⟨"Cafe X", "123 St", "555-1234"⟩] (by decide)

/-- C10 counterexample: a row whose `phone` value is whitespace-only but
whose `Phone` value is a real number satisfies the claim's predicate, yet
the script drops it — Python's `or` stops at the first truthy value, and
`" ".strip()` then fails the test. -/
theorem phone_filter_counterexample :
    ((onlyPhone ["phone", "Phone"] [[("phone", " "), ("Phone", "555")]]).dataRows = [])
    ∧ ([[("phone", " "), ("Phone", "555")]].filter claimKeep
        = [[("phone", " "), ("Phone", "555")]]) := by
  decide

theorem onlyPhoneRows_eq_filter (rows : List (List (String × String))) :
    onlyPhoneRows rows = rows.filter keepRow := by
  induction rows with
  | nil => rfl
  | cons row rest ih =>
      by_cases h : keepRow row
      · simp [onlyPhoneRows, List.filter_cons, h, ih]
      · simp [onlyPhoneRows, List.filter_cons, h, ih]

/-- C10 (amended): the script always writes the header row, and its data
rows are exactly the input rows, in input order, whose first truthy value
among the keys `phone`, `Phone`, `telefono`, `Telefono` is non-empty after
stripping whitespace — in particular a qualifying-free input still yields a
header-only file, unlike the main exporter, which writes nothing. -/
theorem phone_filter_spec (fieldnames : List String)
    (rows : List (List (String × String))) :
    (onlyPhone fieldnames rows).header = fieldnames
    ∧ (onlyPhone fieldnames rows).dataRows = rows.filter keepRow :=
  ⟨rfl, onlyPhoneRows_eq_filter rows⟩

end Scrape
